import Mathlib

/-!
Shallow embedding of the conventional-commit release action core
(src/index.js): commit-message parsing as performed inside
getCommitsSinceDate, next-version calculation (calculateNextVersion),
the derived release decision (run, line 241), and release-notes
generation (generateReleaseNotes).  Text is modelled as lists of
characters; JavaScript regex matching is compiled to a deterministic
scanner (for this particular regex no backtracking can change the
outcome, as argued in the comments of each piece).
-/

namespace SemverAction

/-- Character strings, modelled as lists of characters. -/
abbrev Str := List Char

/-- JS regex word characters, the class denoted by backslash-w in the
source regex: ASCII letters, ASCII digits and the underscore. -/
def isWordChar (c : Char) : Bool := c.isAlphanum || c == '_'

/-- JS regex whitespace, the class denoted by backslash-s: tab, LF,
vertical tab, form feed, CR, space, NBSP, and the Unicode space
separators plus the BOM. This same set is what JS String.trim strips. -/
def isJsWhitespace (c : Char) : Bool :=
  c == '\t' || c == '\n' || c == '\x0b' || c == '\x0c' || c == '\r' || c == ' ' ||
  c == '\u00A0' || c == '\u1680' || ('\u2000' ≤ c && c ≤ '\u200A') ||
  c == '\u2028' || c == '\u2029' || c == '\u202F' || c == '\u205F' ||
  c == '\u3000' || c == '\uFEFF'

/-- JS line terminators: the characters that the regex dot never
matches (LF, CR, LS, PS). -/
def isLineTerm (c : Char) : Bool :=
  c == '\n' || c == '\r' || c == '\u2028' || c == '\u2029'

/-- Result of a successful match of the header regex
    (type, scope or empty, bang flag, description). -/
structure HeaderMatch where
  type : Str
  scope : Str
  bang : Bool
  description : Str
deriving DecidableEq

/-- The tail of the header regex after the colon: backslash-s* followed
by (.+) anchored at the end.  The JS engine takes the maximal
whitespace run; if nothing is left for (.+) it gives back exactly one
whitespace character (a longer give-back still leaves the final
character inside the capture, so one suffices or nothing does), and the
capture must contain no line terminator for the anchor to be reached. -/
def matchDescTail (r : Str) : Option Str :=
  if (r.dropWhile isJsWhitespace).isEmpty then
    match (r.takeWhile isJsWhitespace).getLast? with
    | some c => if isLineTerm c then none else some [c]
    | none => none
  else if (r.dropWhile isJsWhitespace).any isLineTerm then none
  else some (r.dropWhile isJsWhitespace)

/-- After type and optional scope: the optional bang, the mandatory
colon, and the description tail.  The optional bang cannot be rescued
by backtracking: if the character after a consumed bang is not the
colon, skipping the bang instead places the colon test on the bang
itself, which also fails. -/
def finishHeader (t s : Str) (r : Str) : Option HeaderMatch :=
  match r with
  | '!' :: ':' :: r3 => (matchDescTail r3).map (fun d => ⟨t, s, true, d⟩)
  | ':' :: r3 => (matchDescTail r3).map (fun d => ⟨t, s, false, d⟩)
  | _ => none

/-- Deterministic compilation of the header regex of src/index.js line
52 (caret, word-chars group, optional parenthesised scope of non-paren
characters, optional bang, colon, whitespace, dot-plus group, dollar).
The word-chars group takes its maximal run: giving characters back
cannot help, since a word character can never start the scope group,
the bang, or the colon.  The scope group likewise takes everything up
to the first closing paren; if no closing paren follows, neither the
group nor the rest of the pattern can match at an open paren. -/
def parseHeader (h : Str) : Option HeaderMatch :=
  if (h.takeWhile isWordChar).isEmpty then none
  else
    match h.dropWhile isWordChar with
    | '(' :: r =>
      if (r.takeWhile (fun c => c != ')')).isEmpty then none
      else
        match r.dropWhile (fun c => c != ')') with
        | ')' :: r2 => finishHeader (h.takeWhile isWordChar) (r.takeWhile (fun c => c != ')')) r2
        | _ => none
    | r1 => finishHeader (h.takeWhile isWordChar) [] r1

/-- First line of a message: JS message.split with LF, index zero. -/
def firstLineOf (m : Str) : Str := m.takeWhile (fun c => c != '\n')

/-- Everything after the first LF (the join of the remaining split
parts); empty when there is no LF. -/
def restAfterFirst (m : Str) : Str :=
  match m.dropWhile (fun c => c != '\n') with
  | _ :: r => r
  | [] => []

/-- JS String.trim: strip whitespace and line terminators from both
ends; that character set coincides with isJsWhitespace. -/
def trimChars (l : Str) : Str :=
  ((l.dropWhile isJsWhitespace).reverse.dropWhile isJsWhitespace).reverse

/-- The literal substring searched for at src/index.js line 70. -/
def breakingMarker : Str := "BREAKING CHANGE".data

/-- JS String.includes: the needle occurs as a contiguous substring. -/
def listContains (hay needle : Str) : Bool :=
  match hay with
  | [] => needle.isEmpty
  | _ :: t => needle.isPrefixOf hay || listContains t needle

/-- Parsed commit record, as built in getCommitsSinceDate. -/
structure Commit where
  sha : Str
  type : Str
  scope : Str
  description : Str
  body : Str
  isBreaking : Bool
  fullMessage : Str
  author : Str
deriving DecidableEq

def otherS : Str := "other".data
def featS : Str := "feat".data
def fixS : Str := "fix".data

/-- The per-commit parsing step of getCommitsSinceDate (src/index.js
lines 42 to 85): split header from body, match the header regex with
the non-matching fallback, then force the breaking flag whenever the
whole message contains the marker (line 70 checks the full message). -/
def parseCommit (message sha author : Str) : Commit :=
  let fl := firstLineOf message
  let hm := parseHeader fl
  { sha := sha.take 7
    type := match hm with | some m => m.type | none => otherS
    scope := match hm with | some m => m.scope | none => []
    description := match hm with | some m => m.description | none => fl
    body := trimChars (restAfterFirst message)
    isBreaking := (match hm with | some m => m.bang | none => false) ||
      listContains message breakingMarker
    fullMessage := message
    author := author }

/-- Semantic version as the plain major.minor.patch triple (the claims
restrict attention to plain versions, on which semver.inc increments
one component and zeroes the lower ones). -/
structure Version where
  major : Nat
  minor : Nat
  patch : Nat
deriving DecidableEq

/-- The commit scan of calculateNextVersion (src/index.js lines
98 to 120): a breaking commit sets the major flag and skips the type
switch; otherwise a feat sets the minor flag and a fix the patch flag. -/
def bumpLoop : List Commit → Bool → Bool → Bool → Bool × Bool × Bool
  | [], ma, mi, pa => (ma, mi, pa)
  | c :: cs, ma, mi, pa =>
    if c.isBreaking then bumpLoop cs true mi pa
    else if c.type == featS then bumpLoop cs ma true pa
    else if c.type == fixS then bumpLoop cs ma mi true
    else bumpLoop cs ma mi pa

/-- calculateNextVersion (src/index.js lines 93 to 131): scan all
commits, then apply the highest-precedence bump, or return the current
version unchanged. -/
def calculateNextVersion (cs : List Commit) (v : Version) : Version :=
  if (bumpLoop cs false false false).1 then ⟨v.major + 1, 0, 0⟩
  else if (bumpLoop cs false false false).2.1 then ⟨v.major, v.minor + 1, 0⟩
  else if (bumpLoop cs false false false).2.2 then ⟨v.major, v.minor, v.patch + 1⟩
  else v

/-- The release decision of run (src/index.js line 241): next version
differs from the current one. -/
def shouldRelease (cs : List Commit) (v : Version) : Bool :=
  decide (calculateNextVersion cs v ≠ v)

/-- The twelve keys of the commitTypes object of generateReleaseNotes,
in insertion order (src/index.js lines 134 to 183). -/
inductive CatKey
  | breaking | feat | fix | perf | docs | build | ci | test | refactor | style | chore | other
deriving DecidableEq

/-- Object.entries iteration order over commitTypes. -/
def catOrder : List CatKey :=
  [.breaking, .feat, .fix, .perf, .docs, .build, .ci, .test, .refactor, .style, .chore, .other]

/-- The heading of each category, verbatim from the source. -/
def catTitle : CatKey → Str
  | .breaking => "## 💥 Breaking Changes".data
  | .feat => "## ✨ New Features".data
  | .fix => "## 🐛 Bug Fixes".data
  | .perf => "## ⚡ Performance Improvements".data
  | .docs => "## 📚 Documentation".data
  | .build => "## 📦 Build System".data
  | .ci => "## 👷 CI/CD".data
  | .test => "## 🧪 Tests".data
  | .refactor => "## ♻️ Code Refactoring".data
  | .style => "## 💄 Code Style".data
  | .chore => "## 🧹 Chores".data
  | .other => "## 🔧 Other Changes".data

/-- The own keys of the commitTypes object: the JS test (type in
commitTypes) finds these twelve directly on the object. -/
def ownKey : Str → Option CatKey
  | t =>
    if t == "breaking".data then some .breaking
    else if t == featS then some .feat
    else if t == fixS then some .fix
    else if t == "perf".data then some .perf
    else if t == "docs".data then some .docs
    else if t == "build".data then some .build
    else if t == "ci".data then some .ci
    else if t == "test".data then some .test
    else if t == "refactor".data then some .refactor
    else if t == "style".data then some .style
    else if t == "chore".data then some .chore
    else if t == otherS then some .other
    else none

/-- Property names inherited from Object.prototype: the JS (type in
commitTypes) test is also true for these, but the inherited value has
no commits field, so pushing onto it throws a TypeError. -/
def protoProps : List Str :=
  ["constructor".data, "hasOwnProperty".data, "isPrototypeOf".data,
   "propertyIsEnumerable".data, "toLocaleString".data, "toString".data,
   "valueOf".data, "__defineGetter__".data, "__defineSetter__".data,
   "__lookupGetter__".data, "__lookupSetter__".data, "__proto__".data]

/-- Which bucket a commit is pushed into (src/index.js lines 185 to
196); none models the TypeError thrown when the type names an
inherited Object.prototype property. -/
def classify (c : Commit) : Option CatKey :=
  if c.isBreaking then some .breaking
  else
    match ownKey c.type with
    | some k => some k
    | none => if protoProps.contains c.type then none else some .other

/-- The mutable commitTypes buckets, as a map from key to pushed list. -/
def Buckets := CatKey → List Commit

def emptyBuckets : Buckets := fun _ => []

def pushCommit (b : Buckets) (k : CatKey) (c : Commit) : Buckets :=
  fun k2 => if k2 = k then b k2 ++ [c] else b k2

/-- The forEach loop of generateReleaseNotes: push every commit into
its bucket, aborting (none) when a push throws. -/
def fillBuckets : List Commit → Buckets → Option Buckets
  | [], b => some b
  | c :: cs, b =>
    match classify c with
    | none => none
    | some k => fillBuckets cs (pushCommit b k c)

/-- One bullet line (src/index.js lines 203 to 205): optional bold
scope prefix when the scope is non-empty, then description and short
hash. -/
def bulletLine (c : Commit) : Str :=
  "- ".data ++
  (if c.scope.isEmpty then [] else "**".data ++ c.scope ++ "**: ".data) ++
  c.description ++ " (".data ++ c.sha ++ ")\n".data

/-- One category section (src/index.js lines 200 to 208): nothing when
the bucket is empty, otherwise title, blank line, bullets, blank line. -/
def renderSection (k : CatKey) (l : List Commit) : Str :=
  if l.isEmpty then []
  else catTitle k ++ "\n\n".data ++ (l.map bulletLine).flatten ++ "\n".data

def notesHeader : Str := "# Release ".data
def fallbackLine : Str := "No significant changes in this release.\n\n".data

/-- generateReleaseNotes (src/index.js lines 133 to 217): fill the
buckets, render the title and every non-empty section in the fixed key
order, and append the fallback line when every bucket is empty; none
models the TypeError escaping the function. -/
def generateReleaseNotes (cs : List Commit) (version : Str) : Option Str :=
  match fillBuckets cs emptyBuckets with
  | none => none
  | some b =>
    if catOrder.any (fun k => !(b k).isEmpty) then
      some (notesHeader ++ version ++ "\n\n".data ++
        (catOrder.map (fun k => renderSection k (b k))).flatten)
    else
      some (notesHeader ++ version ++ "\n\n".data ++
        (catOrder.map (fun k => renderSection k (b k))).flatten ++ fallbackLine)

/-- Spec-side rendering for the refinement claim about the notes
generator: group by filtering the input list per category, render the
categories in the same fixed order, and emit the fallback exactly for
the empty input list.  To be compared against generateReleaseNotes. -/
def notesSpec (cs : List Commit) (version : Str) : Option Str :=
  if cs.all (fun c => (classify c).isSome) then
    some (notesHeader ++ version ++ "\n\n".data ++
      (catOrder.map
        (fun k => renderSection k (cs.filter (fun c => decide (classify c = some k))))).flatten ++
      (if cs.isEmpty then fallbackLine else []))
  else none

/-- The breaking-flag component of a matched header, false when the
header does not match. -/
def headerBang (m : Str) : Bool :=
  match parseHeader (firstLineOf m) with
  | some hm => hm.bang
  | none => false

/-! Fixed inputs used by the concrete theorems below. -/

def shaW : Str := "1234567890abcdef".data
def authW : Str := "Alex".data
def msgFullScan : Str := "fix: remove BREAKING CHANGE flag".data
def msgNoMatch : Str := "update BREAKING CHANGE docs".data
def msgProto : Str := "constructor: tidy up".data
def msgCapFeat : Str := "Feat: add thing".data
def shaCap : Str := "abc1234xyz".data
def verOneTwoThree : Str := "1.2.3".data
def verZeroFour : Str := "0.4.0".data
def verOne : Str := "1.0.0".data
def capFeatS : Str := "Feat".data
def constructorS : Str := "constructor".data
def notesCapFeat : Str :=
  "# Release 1.2.3\n\n## 🔧 Other Changes\n\n- add thing (abc1234)\n\n".data
def notesEmptyList : Str :=
  "# Release 0.4.0\n\nNo significant changes in this release.\n\n".data

/-- A plain feature commit used as a reordering witness. -/
def wFeat : Commit :=
  { sha := "aaaaaaa".data, type := featS, scope := [], description := "add endpoint".data,
    body := [], isBreaking := false, fullMessage := [], author := [] }

/-- A plain fix commit used as a reordering witness. -/
def wFix : Commit :=
  { sha := "bbbbbbb".data, type := fixS, scope := [], description := "null check".data,
    body := [], isBreaking := false, fullMessage := [], author := [] }

/-! Helper lemmas. -/

theorem takeWhile_app (p : Char → Bool) (t l : Str) (h : t.all p = true) :
    (t ++ l).takeWhile p = t ++ l.takeWhile p := by
  induction t with
  | nil => rfl
  | cons c t ih =>
    simp only [List.all_cons, Bool.and_eq_true] at h
    simp [List.takeWhile_cons, h.1, ih h.2]

theorem dropWhile_app (p : Char → Bool) (t l : Str) (h : t.all p = true) :
    (t ++ l).dropWhile p = l.dropWhile p := by
  induction t with
  | nil => rfl
  | cons c t ih =>
    simp only [List.all_cons, Bool.and_eq_true] at h
    simp [List.dropWhile_cons, h.1, ih h.2]

theorem any_perm {l l2 : List Commit} (p : Commit → Bool) (h : l.Perm l2) :
    l.any p = l2.any p := by
  induction h with
  | nil => rfl
  | cons x _ ih => simp only [List.any_cons, ih]
  | swap x y l => simp only [List.any_cons]; rw [Bool.or_left_comm]
  | trans _ _ ih1 ih2 => exact ih1.trans ih2

theorem bumpLoop_eq (cs : List Commit) (ma mi pa : Bool) :
    bumpLoop cs ma mi pa =
      (ma || cs.any (fun c => c.isBreaking),
       mi || cs.any (fun c => !c.isBreaking && c.type == featS),
       pa || cs.any (fun c => !c.isBreaking && (!(c.type == featS) && c.type == fixS))) := by
  induction cs generalizing ma mi pa with
  | nil => simp [bumpLoop]
  | cons c cs ih =>
    by_cases hb : c.isBreaking
    · simp [bumpLoop, hb, ih, Bool.or_assoc]
    · by_cases hf : c.type == featS
      · simp [bumpLoop, hb, hf, ih, Bool.or_assoc]
      · by_cases hx : c.type == fixS
        · simp [bumpLoop, hb, hf, hx, ih, Bool.or_assoc]
        · simp [bumpLoop, hb, hf, hx, ih]

theorem any_filter_of_none (cs : List Commit) (q p : Commit → Bool)
    (h : cs.any q = false) :
    cs.any (fun c => !q c && p c) = cs.any p := by
  induction cs with
  | nil => rfl
  | cons c cs ih =>
    simp only [List.any_cons, Bool.or_eq_false_iff] at h
    simp [List.any_cons, h.1, ih h.2]

theorem mem_catOrder (k : CatKey) : k ∈ catOrder := by
  cases k <;> simp [catOrder]

theorem fillBuckets_some (cs : List Commit) : ∀ b0 : Buckets,
    (cs.all fun c => (classify c).isSome) = true →
    fillBuckets cs b0 =
      some (fun k => b0 k ++ cs.filter (fun c => decide (classify c = some k))) := by
  induction cs with
  | nil =>
    intro b0 _
    refine congrArg some ?_
    funext k
    simp
  | cons c cs ih =>
    intro b0 h
    simp only [List.all_cons, Bool.and_eq_true] at h
    obtain ⟨k0, hk0⟩ := Option.isSome_iff_exists.mp h.1
    simp only [fillBuckets, hk0]
    rw [ih _ h.2]
    refine congrArg some ?_
    funext k
    by_cases hkk : k = k0
    · subst hkk
      simp [pushCommit, List.filter_cons, hk0, List.append_assoc]
    · have hne : ¬(classify c = some k) := by
        rw [hk0]
        simp
        exact fun hh => hkk hh.symm
      simp [pushCommit, hkk, List.filter_cons, hne]

theorem fillBuckets_none (cs : List Commit) : ∀ b0 : Buckets,
    (cs.all fun c => (classify c).isSome) = false →
    fillBuckets cs b0 = none := by
  induction cs with
  | nil => intro b0 h; simp at h
  | cons c cs ih =>
    intro b0 h
    cases hk : classify c with
    | none => simp [fillBuckets, hk]
    | some k =>
      simp only [List.all_cons, hk, Option.isSome_some, Bool.true_and] at h
      simp only [fillBuckets, hk]
      exact ih _ h

/-! Claim theorems. -/

/-- Claim C1: for every list of parsed commits and every plain
major.minor.patch current version, calculateNextVersion returns the
major bump (minor and patch zeroed) when some commit is breaking, else
the minor bump (patch zeroed) when some commit has type feat, else the
patch bump when some commit has type fix, else the current version
unchanged; only the single highest-precedence level applies. -/
theorem calculateNextVersion_precedence (cs : List Commit) (v : Version) :
    calculateNextVersion cs v =
      (if cs.any (fun c => c.isBreaking) then ⟨v.major + 1, 0, 0⟩
       else if cs.any (fun c => c.type == featS) then ⟨v.major, v.minor + 1, 0⟩
       else if cs.any (fun c => c.type == fixS) then ⟨v.major, v.minor, v.patch + 1⟩
       else v) := by
  unfold calculateNextVersion
  rw [bumpLoop_eq]
  simp only [Bool.false_or]
  by_cases hb : cs.any (fun c => c.isBreaking)
  · simp [hb]
  · have hb2 : cs.any (fun c => c.isBreaking) = false := by
      simpa using hb
    rw [any_filter_of_none cs _ _ hb2, any_filter_of_none cs _ _ hb2]
    by_cases hf : cs.any (fun c => c.type == featS)
    · simp [hf, hb2]
    · have hf2 : cs.any (fun c => c.type == featS) = false := by
        simpa using hf
      rw [any_filter_of_none cs _ _ hf2]

/-- Claim C3: the empty commit list leaves any current version
unchanged and the derived release decision is false; zero commits never
triggers a patch bump. -/
theorem empty_commit_list_no_release (v : Version) :
    calculateNextVersion [] v = v ∧ shouldRelease [] v = false := by
  refine ⟨rfl, ?_⟩
  simp [shouldRelease, calculateNextVersion, bumpLoop]

/-- Claim C8: calculateNextVersion is permutation-invariant: any
reordering of the commit list yields the same next version. -/
theorem calculateNextVersion_perm_invariant (cs cs2 : List Commit) (v : Version)
    (h : cs.Perm cs2) :
    calculateNextVersion cs v = calculateNextVersion cs2 v := by
  unfold calculateNextVersion
  rw [bumpLoop_eq, bumpLoop_eq,
    any_perm (fun c => c.isBreaking) h,
    any_perm (fun c => !c.isBreaking && c.type == featS) h,
    any_perm (fun c => !c.isBreaking && (!(c.type == featS) && c.type == fixS)) h]

/-- Witness for claim C8 at a concrete pair of lists: a feat and a fix
commit swapped give the same next version. -/
theorem calculateNextVersion_perm_invariant_witness :
    calculateNextVersion [wFeat, wFix] ⟨1, 2, 3⟩ =
      calculateNextVersion [wFix, wFeat] ⟨1, 2, 3⟩ :=
  calculateNextVersion_perm_invariant [wFeat, wFix] [wFix, wFeat] ⟨1, 2, 3⟩
    (List.Perm.swap wFix wFeat [])

/-- Claim C2 (code bug, evaluated at the failing input): for the
single-line message "fix: remove BREAKING CHANGE flag" the header
matches without a bang, the body is empty, yet the parser sets
isBreaking, because src/index.js line 70 scans the whole message for
the marker while its own comment (and the spec) say the body. -/
theorem breaking_flag_scans_full_message :
    parseHeader (firstLineOf msgFullScan) =
      some ⟨fixS, [], false, "remove BREAKING CHANGE flag".data⟩ ∧
    (parseCommit msgFullScan shaW authW).body = [] ∧
    (parseCommit msgFullScan shaW authW).isBreaking = true := by
  decide

/-- Claim C6 (code bug, evaluated at the failing input): for the
single-line non-conventional message "update BREAKING CHANGE docs" the
fallback record is produced (type other, empty scope, description the
whole header) and the body is empty, yet isBreaking is true — again
because line 70 scans the whole message, not the body. -/
theorem nonmatching_header_marker_bug :
    parseHeader (firstLineOf msgNoMatch) = none ∧
    (parseCommit msgNoMatch shaW authW).type = otherS ∧
    (parseCommit msgNoMatch shaW authW).scope = [] ∧
    (parseCommit msgNoMatch shaW authW).description = firstLineOf msgNoMatch ∧
    (parseCommit msgNoMatch shaW authW).body = [] ∧
    (parseCommit msgNoMatch shaW authW).isBreaking = true := by
  decide

/-- Claim C5 (code bug, evaluated at the failing input): the message
"constructor: tidy up" parses to type constructor; the JS membership
test (type in commitTypes) is true via the Object prototype chain, the
inherited value has no commits list, and the push throws — modelled by
classify returning none — so the commit lands in zero categories and
note generation aborts instead of filing it under Other Changes. -/
theorem classify_prototype_key_crash :
    (parseCommit msgProto shaW authW).type = constructorS ∧
    classify (parseCommit msgProto shaW authW) = none ∧
    generateReleaseNotes [parseCommit msgProto shaW authW] verOne = none := by
  decide

/-- Counterexample to claim C4 as stated: for the empty commit list and
version 0.4.0 the generated notes are the release-title line followed
by the fallback line, which is not equal to the bare fallback line, and
the output does contain a markdown heading (the title). -/
theorem notes_fallback_counterexample :
    generateReleaseNotes [] verZeroFour = some notesEmptyList ∧
    notesEmptyList ≠ fallbackLine ∧
    listContains notesEmptyList "# ".data = true := by
  decide

/-- Claim C4 as amended: when no category receives any commit, the
output is exactly the release-title line followed by the single literal
fallback line (so no category heading appears). -/
theorem notes_fallback_with_title (cs : List Commit) (v : Str) (b : Buckets)
    (hfill : fillBuckets cs emptyBuckets = some b) (hempty : ∀ k, b k = []) :
    generateReleaseNotes cs v =
      some (notesHeader ++ v ++ "\n\n".data ++ fallbackLine) := by
  unfold generateReleaseNotes
  rw [hfill]
  simp [catOrder, renderSection, hempty]

/-- Witness for the amended claim C4 at the empty list and version
0.4.0. -/
theorem notes_fallback_with_title_witness :
    generateReleaseNotes [] verZeroFour =
      some (notesHeader ++ verZeroFour ++ "\n\n".data ++ fallbackLine) :=
  notes_fallback_with_title [] verZeroFour emptyBuckets rfl (fun _ => rfl)

/-- Claim C7: a header of the form type(scope)!: description whose
scope is non-empty, closes no paren early and may contain embedded
slash separators is matched with the full scope captured exactly, the
bang detected, and the description captured after the colon. -/
theorem parseHeader_nested_scope (t s d2 : Str) (c0 : Char)
    (ht : t ≠ [] ∧ t.all isWordChar = true)
    (hs : s ≠ [] ∧ s.all (fun c => c != ')') = true ∧ '/' ∈ s)
    (hc : isJsWhitespace c0 = false)
    (hd : (c0 :: d2).any isLineTerm = false) :
    parseHeader (t ++ '(' :: (s ++ ')' :: '!' :: ':' :: ' ' :: c0 :: d2)) =
      some ⟨t, s, true, c0 :: d2⟩ := by
  obtain ⟨ht1, ht2⟩ := ht
  obtain ⟨hs1, hs2, -⟩ := hs
  have hpar : isWordChar '(' = false := by decide
  have e1 : (t ++ '(' :: (s ++ ')' :: '!' :: ':' :: ' ' :: c0 :: d2)).takeWhile isWordChar
      = t := by
    rw [takeWhile_app _ _ _ ht2]
    simp [List.takeWhile_cons, hpar]
  have e2 : (t ++ '(' :: (s ++ ')' :: '!' :: ':' :: ' ' :: c0 :: d2)).dropWhile isWordChar
      = '(' :: (s ++ ')' :: '!' :: ':' :: ' ' :: c0 :: d2) := by
    rw [dropWhile_app _ _ _ ht2]
    simp [List.dropWhile_cons, hpar]
  have hrp : ((')' : Char) != ')') = false := by decide
  have e3 : (s ++ ')' :: '!' :: ':' :: ' ' :: c0 :: d2).takeWhile (fun c => c != ')')
      = s := by
    rw [takeWhile_app _ _ _ hs2]
    simp [List.takeWhile_cons]
  have e4 : (s ++ ')' :: '!' :: ':' :: ' ' :: c0 :: d2).dropWhile (fun c => c != ')')
      = ')' :: '!' :: ':' :: ' ' :: c0 :: d2 := by
    rw [dropWhile_app _ _ _ hs2]
    simp [List.dropWhile_cons]
  have e5 : matchDescTail (' ' :: c0 :: d2) = some (c0 :: d2) := by
    have hsp : isJsWhitespace ' ' = true := by decide
    unfold matchDescTail
    simp [List.dropWhile_cons, hsp, hc, hd]
  have e6 : t.isEmpty = false := by
    cases t with
    | nil => exact absurd rfl ht1
    | cons a as => rfl
  have e7 : s.isEmpty = false := by
    cases s with
    | nil => exact absurd rfl hs1
    | cons a as => rfl
  have e8 : finishHeader t s ('!' :: ':' :: ' ' :: c0 :: d2) =
      (matchDescTail (' ' :: c0 :: d2)).map
        (fun d => ⟨t, s, true, d⟩) := rfl
  unfold parseHeader
  rw [e1, e2]
  simp only [e3, e4, e6, e7, Bool.false_eq_true, if_false]
  rw [e8, e5]
  rfl

/-- Witness for claim C7 at the concrete header
feat(api/v2/auth)!: rework auth. -/
theorem parseHeader_nested_scope_witness :
    parseHeader ("feat".data ++ '(' ::
        ("api/v2/auth".data ++ ')' :: '!' :: ':' :: ' ' :: 'r' :: "ework auth".data)) =
      some ⟨"feat".data, "api/v2/auth".data, true, 'r' :: "ework auth".data⟩ :=
  parseHeader_nested_scope "feat".data "api/v2/auth".data "ework auth".data 'r'
    (by decide) (by decide) (by decide) (by decide)

/-- Claim C9: the notes generator is a deterministic function of the
commit list and version, equal to the specification-side rendering that
lists the twelve categories in the fixed order, omits empty categories,
keeps input order inside each category by filtering, and emits the
fallback line exactly for the empty list. -/
theorem generateReleaseNotes_matches_spec (cs : List Commit) (v : Str) :
    generateReleaseNotes cs v = notesSpec cs v := by
  cases hall : (cs.all fun c => (classify c).isSome) with
  | false =>
    unfold generateReleaseNotes notesSpec
    rw [fillBuckets_none cs emptyBuckets hall, hall]
    rfl
  | true =>
    unfold generateReleaseNotes notesSpec
    rw [fillBuckets_some cs emptyBuckets hall, hall]
    simp only [emptyBuckets, List.nil_append, if_true]
    cases cs with
    | nil => simp
    | cons c cs2 =>
      have h1 : (classify c).isSome := by
        have := hall
        simp only [List.all_cons, Bool.and_eq_true] at this
        exact this.1
      obtain ⟨k0, hk0⟩ := Option.isSome_iff_exists.mp h1
      have hmem : ((c :: cs2).filter
          (fun x => decide (classify x = some k0))).isEmpty = false := by
        simp [List.filter_cons, hk0]
      have hany : catOrder.any
          (fun k => !((c :: cs2).filter
            (fun x => decide (classify x = some k))).isEmpty) = true := by
        refine List.any_eq_true.mpr ⟨k0, mem_catOrder k0, ?_⟩
        simp [hmem]
      rw [hany]
      simp

/-- Claim C10: type matching is case-sensitive end to end: the header
"Feat: add thing" parses with type Feat passed through verbatim, such a
commit never bumps the version, and it is rendered under Other
Changes. -/
theorem type_matching_case_sensitive :
    (parseCommit msgCapFeat shaCap authW).type = capFeatS ∧
    (∀ v : Version, calculateNextVersion [parseCommit msgCapFeat shaCap authW] v = v) ∧
    generateReleaseNotes [parseCommit msgCapFeat shaCap authW] verOneTwoThree =
      some notesCapFeat := by
  refine ⟨by decide, ?_, by decide⟩
  intro v
  have h : bumpLoop [parseCommit msgCapFeat shaCap authW] false false false =
      (false, false, false) := by decide
  simp [calculateNextVersion, h]

end SemverAction
